import Mathlib

/-
Verification of the PatchVec collection store and service layer
(src/pave/stores/txtai_store.py, src/pave/service.py, src/pave/main.py,
src/pave/preprocess.py, src/pave/auth.py).

Python strings are embedded as `List Char`; Python `None`-able values as
`Option`; Python dicts as association lists keyed by `List Char`.  Machine
floats appear only as similarity scores, which no verified property
inspects numerically, so scores are embedded as `Rat`.
-/

namespace Patchvec

/-- Characters that are awkward to write literally are named here. -/
def quoteChar : Char := Char.ofNat 39

def dquoteChar : Char := Char.ofNat 34

def backquoteChar : Char := Char.ofNat 96

def backslashChar : Char := Char.ofNat 92

def nulChar : Char := Char.ofNat 0

def semicolonChar : Char := Char.ofNat 59

/-- Strings of the embedded program are lists of characters. -/
abbrev Str := List Char

/-- Python `a.startswith(b)` on strings. -/
def startsWithL (pre s : Str) : Bool :=
  match pre, s with
  | [], _ => true
  | _ :: _, [] => false
  | p :: ps, c :: cs => p = c && startsWithL ps cs

/-- Python `a.endswith(b)` on strings. -/
def endsWithL (suf s : Str) : Bool :=
  startsWithL suf.reverse s.reverse

/-- Python `needle in hay` (substring containment) on strings. -/
def containsSub (needle : Str) : Str → Bool
  | [] => needle.isEmpty
  | c :: rest => startsWithL needle (c :: rest) || containsSub needle rest

/-- Association-list lookup, embedding Python `d.get(k)`. -/
def getA {V : Type} (k : Str) : List (Str × V) → Option V
  | [] => none
  | (k', v) :: rest => if k' = k then some v else getA k rest

/-- Association-list update, embedding Python `d[k] = v`. -/
def setA {V : Type} (k : Str) (v : V) : List (Str × V) → List (Str × V)
  | [] => [(k, v)]
  | (k', v') :: rest => if k' = k then (k, v) :: rest else (k', v') :: setA k v rest

/-- Association-list removal, embedding Python `d.pop(k, None)` / `del d[k]`. -/
def eraseA {V : Type} (k : Str) : List (Str × V) → List (Str × V)
  | [] => []
  | (k', v') :: rest => if k' = k then eraseA k rest else (k', v') :: eraseA k rest

@[simp] theorem getA_setA_same {V : Type} (k : Str) (v : V) (l : List (Str × V)) :
    getA k (setA k v l) = some v := by
  induction l with
  | nil => simp [getA, setA]
  | cons h t ih =>
    obtain ⟨k', v'⟩ := h
    by_cases hk : k' = k <;> simp [getA, setA, hk, ih]

theorem getA_setA_other {V : Type} (k k' : Str) (v : V) (l : List (Str × V))
    (h : k' ≠ k) : getA k' (setA k v l) = getA k' l := by
  induction l with
  | nil => simp [getA, setA, Ne.symm h]
  | cons hd t ih =>
    obtain ⟨k0, v0⟩ := hd
    by_cases hk : k0 = k
    · subst hk
      simp [getA, setA, Ne.symm h]
    · simp [setA, if_neg hk, getA, ih]

@[simp] theorem getA_eraseA_same {V : Type} (k : Str) (l : List (Str × V)) :
    getA k (eraseA k l) = none := by
  induction l with
  | nil => simp [getA, eraseA]
  | cons hd t ih =>
    obtain ⟨k0, v0⟩ := hd
    by_cases hk : k0 = k
    · simp [eraseA, hk, ih]
    · simp [getA, eraseA, hk, ih]

theorem getA_eraseA_other {V : Type} (k k' : Str) (l : List (Str × V))
    (h : k' ≠ k) : getA k' (eraseA k l) = getA k' l := by
  induction l with
  | nil => simp [eraseA]
  | cons hd t ih =>
    obtain ⟨k0, v0⟩ := hd
    by_cases hk : k0 = k
    · subst hk
      simp [eraseA, getA, ih, Ne.symm h]
    · simp [eraseA, if_neg hk, getA, ih]

/-
Sanitizers, from `TxtaiStore._sanit_sql` / `TxtaiStore._sanit_field`
(src/pave/stores/txtai_store.py lines 17-23 and 503-524).
-/

/-- Embedding of the `_SQL_TRANS` translation table: `;`, `"`, backquote and
backslash map to a space, NUL is deleted, everything else is kept. -/
def sqlTranslate (ch : Char) : Option Char :=
  if ch = semicolonChar ∨ ch = dquoteChar ∨ ch = backquoteChar ∨ ch = backslashChar then
    some ' '
  else if ch = nulChar then none
  else some ch

/-- Embedding of `str.translate(_SQL_TRANS)`. -/
def translateSql (s : Str) : Str := s.filterMap sqlTranslate

/-- Embedding of `text.split(token, 1)[0]` guarded by `token in text`: the
prefix of `s` before the first occurrence of `tok` (all of `s` when absent). -/
def cutAt (tok : Str) : Str → Str
  | [] => []
  | c :: rest => if startsWithL tok (c :: rest) then [] else c :: cutAt tok rest

/-- Embedding of Python `str.strip()` (no arguments: strips whitespace). -/
def pyStrip (s : Str) : Str :=
  ((s.dropWhile Char.isWhitespace).reverse.dropWhile Char.isWhitespace).reverse

/-- Embedding of the optional truncation
`if max_len is not None and max_len > 0 and len(text) > max_len`. -/
def truncateOpt (maxLen : Option Int) (s : Str) : Str :=
  match maxLen with
  | some m => if 0 < m ∧ m < (s.length : Int) then s.take m.toNat else s
  | none => s

/-- Embedding of `text.replace("'", "''")`. -/
def doubleQuotes : Str → Str
  | [] => []
  | c :: rest =>
      if c = quoteChar then c :: c :: doubleQuotes rest else c :: doubleQuotes rest

/-- Embedding of `TxtaiStore._sanit_sql(value, max_len=...)` on strings. -/
def sanit_sql_full (maxLen : Option Int) (s : Str) : Str :=
  doubleQuotes (truncateOpt maxLen
    (pyStrip (cutAt ['*', '/'] (cutAt ['/', '*'] (cutAt ['-', '-'] (translateSql s))))))

/-- Embedding of `TxtaiStore._sanit_sql(value)` with the default `max_len=None`. -/
def sanit_sql (s : Str) : Str := sanit_sql_full none s

/-- Embedding of the keep-predicate `ch.isalnum() or ch in {"_", "-"}` of
`_sanit_field` (ASCII alphanumerics; Unicode alphanumerics behave alike since
the same predicate is applied on every pass). -/
def isFieldChar (c : Char) : Bool := c.isAlphanum || c = '_' || c = '-'

/-- Embedding of `TxtaiStore._sanit_field` on strings. -/
def sanit_field (s : Str) : Str := s.filter isFieldChar

theorem sanit_field_idem (s : Str) : sanit_field (sanit_field s) = sanit_field s := by
  simp [sanit_field, List.filter_filter]

theorem mem_translateSql_fixed {c : Char} {s : Str} (h : c ∈ translateSql s) :
    sqlTranslate c = some c := by
  rcases List.mem_filterMap.mp h with ⟨a, _, ha⟩
  simp only [sqlTranslate] at ha ⊢
  split_ifs at ha with h1 h2
  · injection ha with hh
    subst hh
    decide
  · injection ha with hh
    subst hh
    rw [if_neg h1, if_neg h2]

theorem translateSql_eq_self {s : Str} (h : ∀ c ∈ s, sqlTranslate c = some c) :
    translateSql s = s := by
  induction s with
  | nil => rfl
  | cons c rest ih =>
    have hc := h c (List.mem_cons_self c rest)
    simp only [translateSql, List.filterMap_cons, hc]
    exact congrArg (c :: ·) (ih fun x hx => h x (List.mem_cons_of_mem c hx))

theorem cutAt_app (tok s : Str) : ∃ q, cutAt tok s ++ q = s := by
  induction s with
  | nil => exact ⟨[], rfl⟩
  | cons c rest ih =>
    by_cases h : startsWithL tok (c :: rest) = true
    · exact ⟨c :: rest, by simp [cutAt, h]⟩
    · rcases ih with ⟨q, hq⟩
      exact ⟨q, by simp [cutAt, h, hq]⟩

theorem startsWithL_append {tok p : Str} (q : Str) (h : startsWithL tok p = true) :
    startsWithL tok (p ++ q) = true := by
  induction tok generalizing p with
  | nil => rfl
  | cons x ts ih =>
    cases p with
    | nil => simp [startsWithL] at h
    | cons y ps =>
      simp only [startsWithL, Bool.and_eq_true] at h
      simp only [List.cons_append, startsWithL, Bool.and_eq_true]
      exact ⟨h.1, ih h.2⟩

theorem containsSub_append_right {tok u : Str} (p : Str)
    (h : containsSub tok u = true) : containsSub tok (p ++ u) = true := by
  induction p with
  | nil => simpa using h
  | cons c rest ih =>
    simp only [List.cons_append, containsSub, Bool.or_eq_true]
    exact Or.inr ih

theorem containsSub_append_left {tok p : Str} (q : Str)
    (h : containsSub tok p = true) : containsSub tok (p ++ q) = true := by
  induction p with
  | nil =>
    simp only [containsSub, List.isEmpty_iff] at h
    subst h
    cases q with
    | nil => rfl
    | cons c rest => simp [containsSub, startsWithL]
  | cons c rest ih =>
    simp only [containsSub, Bool.or_eq_true] at h
    simp only [List.cons_append, containsSub, Bool.or_eq_true]
    rcases h with h | h
    · exact Or.inl (startsWithL_append q h)
    · exact Or.inr (ih h)

theorem cutAt_eq_self {tok s : Str} (h : containsSub tok s = false) :
    cutAt tok s = s := by
  induction s with
  | nil => rfl
  | cons c rest ih =>
    simp only [containsSub, Bool.or_eq_false_iff] at h
    simp [cutAt, h.1, ih h.2]

theorem containsSub_cutAt (tok : Str) (htok : tok ≠ []) (s : Str) :
    containsSub tok (cutAt tok s) = false := by
  induction s with
  | nil => simpa [containsSub, List.isEmpty_iff] using htok
  | cons c rest ih =>
    by_cases h : startsWithL tok (c :: rest) = true
    · simpa [cutAt, h, containsSub, List.isEmpty_iff] using htok
    · simp only [cutAt, h, if_false, Bool.false_eq_true]
      simp only [containsSub, Bool.or_eq_false_iff]
      refine ⟨?_, ih⟩
      rcases cutAt_app tok rest with ⟨q, hq⟩
      by_contra hs
      have hs' : startsWithL tok (c :: cutAt tok rest) = true := by
        revert hs
        cases hstart : startsWithL tok (c :: cutAt tok rest) <;> simp
      have := startsWithL_append (p := c :: cutAt tok rest) q hs'
      rw [List.cons_append, hq] at this
      exact h this

theorem mem_doubleQuotes {c : Char} {u : Str} (h : c ∈ doubleQuotes u) : c ∈ u := by
  induction u with
  | nil => simp [doubleQuotes] at h
  | cons d rest ih =>
    by_cases hd : d = quoteChar <;>
      · simp only [doubleQuotes, hd, if_true, if_false, List.mem_cons] at h ⊢
        tauto

theorem doubleQuotes_eq_self {u : Str} (h : quoteChar ∉ u) : doubleQuotes u = u := by
  induction u with
  | nil => rfl
  | cons d rest ih =>
    simp only [List.mem_cons, not_or] at h
    simp [doubleQuotes, Ne.symm h.1, ih h.2]

theorem doubleQuotes_append (x y : Str) :
    doubleQuotes (x ++ y) = doubleQuotes x ++ doubleQuotes y := by
  induction x with
  | nil => rfl
  | cons c rest ih =>
    by_cases hc : c = quoteChar <;> simp [doubleQuotes, hc, ih]

theorem doubleQuotes_reverse (u : Str) :
    doubleQuotes u.reverse = (doubleQuotes u).reverse := by
  induction u with
  | nil => rfl
  | cons c rest ih =>
    by_cases hc : c = quoteChar <;>
      simp [doubleQuotes, hc, doubleQuotes_append, ih]

theorem head?_doubleQuotes (u : Str) : (doubleQuotes u).head? = u.head? := by
  cases u with
  | nil => rfl
  | cons c rest => by_cases hc : c = quoteChar <;> simp [doubleQuotes, hc]

theorem getLast?_doubleQuotes (u : Str) : (doubleQuotes u).getLast? = u.getLast? := by
  rw [← List.head?_reverse, ← List.head?_reverse, ← doubleQuotes_reverse,
    head?_doubleQuotes]

theorem startsWithL_single_doubleQuotes {b : Char} (hb : b ≠ quoteChar) {w : Str}
    (h : startsWithL [b] (doubleQuotes w) = true) : startsWithL [b] w = true := by
  cases w with
  | nil => simp [doubleQuotes, startsWithL] at h
  | cons d w2 =>
    by_cases hd : d = quoteChar
    · subst hd
      simp only [doubleQuotes, if_true, startsWithL, Bool.and_eq_true,
        decide_eq_true_eq] at h
      exact absurd h.1 hb
    · simp only [doubleQuotes, hd, if_false, startsWithL] at h
      simpa [startsWithL] using h

theorem containsSub_doubleQuotes_false {a b : Char} (ha : a ≠ quoteChar)
    (hb : b ≠ quoteChar) {u : Str} (h : containsSub [a, b] u = false) :
    containsSub [a, b] (doubleQuotes u) = false := by
  induction u with
  | nil => simpa [doubleQuotes] using h
  | cons c rest ih =>
    simp only [containsSub, Bool.or_eq_false_iff] at h
    have hrest := ih h.2
    by_cases hc : c = quoteChar
    · subst hc
      simp only [doubleQuotes, if_true]
      simp only [containsSub, Bool.or_eq_false_iff]
      refine ⟨?_, ?_, hrest⟩
      · simp [startsWithL, ha]
      · simp [startsWithL, ha]
    · simp only [doubleQuotes, hc, if_false]
      simp only [containsSub, Bool.or_eq_false_iff]
      refine ⟨?_, hrest⟩
      by_contra hs
      have hs' : startsWithL [a, b] (c :: doubleQuotes rest) = true := by
        revert hs
        cases hx : startsWithL [a, b] (c :: doubleQuotes rest) <;> simp
      simp only [startsWithL, Bool.and_eq_true, decide_eq_true_eq] at hs'
      have hbw : startsWithL [b] rest = true :=
        startsWithL_single_doubleQuotes hb (by
          cases rest' : doubleQuotes rest with
          | nil => rw [rest'] at hs'; simpa [startsWithL] using hs'.2
          | cons z zs =>
            rw [rest'] at hs'
            simpa [startsWithL] using hs'.2)
      have : startsWithL [a, b] (c :: rest) = true := by
        simp only [startsWithL, Bool.and_eq_true, decide_eq_true_eq]
        refine ⟨hs'.1, ?_⟩
        cases rest with
        | nil => simp [startsWithL] at hbw
        | cons z zs => simpa [startsWithL] using hbw
      rw [this] at h
      exact absurd h.1 (by simp)

theorem mem_cutAt {c : Char} {tok s : Str} (h : c ∈ cutAt tok s) : c ∈ s := by
  rcases cutAt_app tok s with ⟨q, hq⟩
  rw [← hq]
  exact List.mem_append_left q h

theorem dropWhile_suf {V : Type} (p : V → Bool) (l : List V) :
    ∃ q, q ++ l.dropWhile p = l := by
  induction l with
  | nil => exact ⟨[], rfl⟩
  | cons c rest ih =>
    by_cases hc : p c
    · rcases ih with ⟨q, hq⟩
      exact ⟨c :: q, by rw [List.dropWhile_cons, if_pos hc, List.cons_append, hq]⟩
    · exact ⟨[], by rw [List.dropWhile_cons, if_neg hc, List.nil_append]⟩

theorem dropWhile_head_not {V : Type} {p : V → Bool} {l : List V} {c : V}
    (h : (l.dropWhile p).head? = some c) : p c = false := by
  induction l with
  | nil => simp [List.dropWhile] at h
  | cons d rest ih =>
    by_cases hd : p d
    · rw [List.dropWhile_cons, if_pos hd] at h
      exact ih h
    · rw [List.dropWhile_cons, if_neg hd] at h
      injection h with hh
      subst hh
      simpa using hd

theorem dropWhile_eq_self {V : Type} {p : V → Bool} {l : List V}
    (h : ∀ c, l.head? = some c → p c = false) : l.dropWhile p = l := by
  cases l with
  | nil => rfl
  | cons d rest => rw [List.dropWhile_cons, if_neg (by simp [h d rfl])]

theorem head?_app {V : Type} {l : List V} (r : List V) (h : l ≠ []) :
    (l ++ r).head? = l.head? := by
  cases l with
  | nil => exact absurd rfl h
  | cons c rest => rfl

theorem getLast?_app {V : Type} {v : List V} (q : List V) (h : v ≠ []) :
    (q ++ v).getLast? = v.getLast? := by
  rw [← List.head?_reverse, ← List.head?_reverse, List.reverse_append,
    head?_app _ (by simpa [List.reverse_eq_nil_iff] using h)]

theorem pyStrip_parts (s : Str) : ∃ p q, p ++ (pyStrip s ++ q) = s := by
  rcases dropWhile_suf Char.isWhitespace s with ⟨p, hp⟩
  rcases dropWhile_suf Char.isWhitespace
      (s.dropWhile Char.isWhitespace).reverse with ⟨q, hq⟩
  refine ⟨p, q.reverse, ?_⟩
  have h2 := congrArg List.reverse hq
  simp only [List.reverse_append, List.reverse_reverse] at h2
  rw [show pyStrip s ++ q.reverse = s.dropWhile Char.isWhitespace from h2, hp]

theorem containsSub_infix_false {tok p x q : Str}
    (h : containsSub tok (p ++ (x ++ q)) = false) : containsSub tok x = false := by
  cases hx : containsSub tok x with
  | false => rfl
  | true =>
    have := containsSub_append_right p (containsSub_append_left q hx)
    rw [h] at this
    cases this

theorem mem_pyStrip {c : Char} {s : Str} (h : c ∈ pyStrip s) : c ∈ s := by
  rcases pyStrip_parts s with ⟨p, q, hpq⟩
  rw [← hpq]
  exact List.mem_append_right p (List.mem_append_left q h)

theorem pyStrip_head_not_ws {s : Str} {c : Char} (h : (pyStrip s).head? = some c) :
    c.isWhitespace = false := by
  rcases dropWhile_suf Char.isWhitespace
      (s.dropWhile Char.isWhitespace).reverse with ⟨q, hq⟩
  rw [pyStrip, List.head?_reverse] at h
  have hne : (s.dropWhile Char.isWhitespace).reverse.dropWhile Char.isWhitespace ≠ [] := by
    intro hnil
    rw [hnil] at h
    cases h
  rw [← getLast?_app q hne, hq, ← List.head?_reverse, List.reverse_reverse] at h
  exact dropWhile_head_not h

theorem pyStrip_getLast_not_ws {s : Str} {c : Char}
    (h : (pyStrip s).getLast? = some c) : c.isWhitespace = false := by
  rw [pyStrip, ← List.head?_reverse, List.reverse_reverse] at h
  exact dropWhile_head_not h

theorem pyStrip_eq_self {l : Str}
    (hh : ∀ c, l.head? = some c → c.isWhitespace = false)
    (hl : ∀ c, l.getLast? = some c → c.isWhitespace = false) : pyStrip l = l := by
  rw [pyStrip, dropWhile_eq_self hh,
    dropWhile_eq_self (fun c hc => hl c (by rwa [List.head?_reverse] at hc)),
    List.reverse_reverse]

theorem pyStrip_idem (s : Str) : pyStrip (pyStrip s) = pyStrip s :=
  pyStrip_eq_self (fun _ h => pyStrip_head_not_ws h) (fun _ h => pyStrip_getLast_not_ws h)

theorem sanit_sql_eq (s : Str) : sanit_sql s =
    doubleQuotes (pyStrip (cutAt ['*', '/'] (cutAt ['/', '*']
      (cutAt ['-', '-'] (translateSql s))))) := rfl

theorem sanit_sql_chars_fixed {s : Str} {c : Char} (h : c ∈ sanit_sql s) :
    sqlTranslate c = some c := by
  rw [sanit_sql_eq] at h
  exact mem_translateSql_fixed (mem_cutAt (mem_cutAt (mem_cutAt
    (mem_pyStrip (mem_doubleQuotes h)))))

theorem sanit_sql_no_tok (s : Str) :
    containsSub ['-', '-'] (sanit_sql s) = false ∧
    containsSub ['/', '*'] (sanit_sql s) = false ∧
    containsSub ['*', '/'] (sanit_sql s) = false := by
  rw [sanit_sql_eq]
  have hA : containsSub ['-', '-'] (cutAt ['-', '-'] (translateSql s)) = false :=
    containsSub_cutAt _ (by simp) _
  have hB1 : containsSub ['-', '-']
      (cutAt ['/', '*'] (cutAt ['-', '-'] (translateSql s))) = false := by
    rcases cutAt_app ['/', '*'] (cutAt ['-', '-'] (translateSql s)) with ⟨q, hq⟩
    exact @containsSub_infix_false ['-', '-'] [] _ q (by rw [List.nil_append, hq]; exact hA)
  have hB2 : containsSub ['/', '*']
      (cutAt ['/', '*'] (cutAt ['-', '-'] (translateSql s))) = false :=
    containsSub_cutAt _ (by simp) _
  have hC1 : containsSub ['-', '-'] (cutAt ['*', '/'] (cutAt ['/', '*']
      (cutAt ['-', '-'] (translateSql s)))) = false := by
    rcases cutAt_app ['*', '/'] (cutAt ['/', '*'] (cutAt ['-', '-'] (translateSql s)))
      with ⟨q, hq⟩
    exact @containsSub_infix_false ['-', '-'] [] _ q (by rw [List.nil_append, hq]; exact hB1)
  have hC2 : containsSub ['/', '*'] (cutAt ['*', '/'] (cutAt ['/', '*']
      (cutAt ['-', '-'] (translateSql s)))) = false := by
    rcases cutAt_app ['*', '/'] (cutAt ['/', '*'] (cutAt ['-', '-'] (translateSql s)))
      with ⟨q, hq⟩
    exact @containsSub_infix_false ['/', '*'] [] _ q (by rw [List.nil_append, hq]; exact hB2)
  have hC3 : containsSub ['*', '/'] (cutAt ['*', '/'] (cutAt ['/', '*']
      (cutAt ['-', '-'] (translateSql s)))) = false :=
    containsSub_cutAt _ (by simp) _
  rcases pyStrip_parts (cutAt ['*', '/'] (cutAt ['/', '*']
      (cutAt ['-', '-'] (translateSql s)))) with ⟨p, q, hpq⟩
  have ht1 := @containsSub_infix_false ['-', '-'] p _ q (by rw [hpq]; exact hC1)
  have ht2 := @containsSub_infix_false ['/', '*'] p _ q (by rw [hpq]; exact hC2)
  have ht3 := @containsSub_infix_false ['*', '/'] p _ q (by rw [hpq]; exact hC3)
  exact ⟨containsSub_doubleQuotes_false (by decide) (by decide) ht1,
    containsSub_doubleQuotes_false (by decide) (by decide) ht2,
    containsSub_doubleQuotes_false (by decide) (by decide) ht3⟩

theorem sanit_sql_head_not_ws {s : Str} {c : Char}
    (h : (sanit_sql s).head? = some c) : c.isWhitespace = false := by
  rw [sanit_sql_eq, head?_doubleQuotes] at h
  exact pyStrip_head_not_ws h

theorem sanit_sql_getLast_not_ws {s : Str} {c : Char}
    (h : (sanit_sql s).getLast? = some c) : c.isWhitespace = false := by
  rw [sanit_sql_eq, getLast?_doubleQuotes] at h
  exact pyStrip_getLast_not_ws h

theorem sanit_sql_pass2 (s : Str) :
    sanit_sql (sanit_sql s) = doubleQuotes (sanit_sql s) := by
  obtain ⟨h1, h2, h3⟩ := sanit_sql_no_tok s
  calc sanit_sql (sanit_sql s)
      = doubleQuotes (pyStrip (cutAt ['*', '/'] (cutAt ['/', '*']
          (cutAt ['-', '-'] (translateSql (sanit_sql s)))))) := sanit_sql_eq _
    _ = doubleQuotes (sanit_sql s) := by
        rw [translateSql_eq_self (fun c hc => sanit_sql_chars_fixed hc),
          cutAt_eq_self h1, cutAt_eq_self h2, cutAt_eq_self h3,
          pyStrip_eq_self (fun c hc => sanit_sql_head_not_ws hc)
            (fun c hc => sanit_sql_getLast_not_ws hc)]

/-- C4 counterexample: a lone apostrophe refutes `sanit_sql` idempotence.
`sanit_sql("'") = "''"` but `sanit_sql("''") = "''''"`. -/
theorem C4_sanitizers_counterexample :
    sanit_sql (sanit_sql [quoteChar]) ≠ sanit_sql [quoteChar] := by decide

/-- C4 (amended): `sanit_field` is idempotent; `sanit_sql` applied twice
doubles each remaining apostrophe once more, so `sanit_sql` is idempotent
exactly on inputs whose sanitized form contains no apostrophe. -/
theorem C4_sanitizers_amended :
    (∀ s : Str, sanit_field (sanit_field s) = sanit_field s) ∧
    (∀ s : Str, sanit_sql (sanit_sql s) = doubleQuotes (sanit_sql s)) ∧
    (∀ s : Str, quoteChar ∉ sanit_sql s → sanit_sql (sanit_sql s) = sanit_sql s) := by
  refine ⟨sanit_field_idem, sanit_sql_pass2, fun s hq => ?_⟩
  rw [sanit_sql_pass2 s, doubleQuotes_eq_self hq]

/-- C4 witness: the amended idempotence applied to the concrete input `"ab"`. -/
theorem C4_sanitizers_amended_witness :
    sanit_sql (sanit_sql ['a', 'b']) = sanit_sql ['a', 'b'] :=
  C4_sanitizers_amended.2.2 ['a', 'b'] (by decide)

/-
Metadata values and the post-filter evaluator `TxtaiStore._matches_filters`
(src/pave/stores/txtai_store.py lines 373-435), with `_lookup_meta` (470-479)
and the metadata sanitizers `_sanit_meta_value` / `_sanit_meta_dict` (481-501).
-/

/-- Dynamic Python values stored in chunk metadata.  Numbers are embedded as
integers (the verified properties never depend on non-integral numerics). -/
inductive Val where
  | vnone
  | vstr (s : Str)
  | vint (n : Int)
  | vbool (b : Bool)
  | vlist (xs : List Val)
  | vdict (m : List (Str × Val))

/-- Embedding of Python `str(value)` for scalar values.  The renderings of
lists and dicts are simplified placeholders: `_matches_filters` stringifies a
value only after dispatching lists to the recursive branch, and no verified
property inspects the rendering of a dict. -/
def pyStr : Val → Str
  | .vnone => ("None").toList
  | .vstr s => s
  | .vint n => (toString n).toList
  | .vbool true => ("True").toList
  | .vbool false => ("False").toList
  | .vlist _ => ("[...]").toList
  | .vdict _ => ("\x7b...\x7d").toList

/-- Embedding of Python `float(value)` restricted to integer values: `float`
succeeds on numbers, booleans and numeric strings and raises otherwise. -/
def digitsToNatQ (ds : Str) : Option Nat :=
  if ds ≠ [] ∧ ds.all Char.isDigit then
    some (ds.foldl (fun n c => n * 10 + (c.toNat - 48)) 0)
  else none

def parseIntStr (s : Str) : Option Int :=
  match pyStrip s with
  | [] => none
  | c :: rest =>
      if c = '-' then (digitsToNatQ rest).map (fun n => -(n : Int))
      else if c = '+' then (digitsToNatQ rest).map (fun n => (n : Int))
      else (digitsToNatQ (c :: rest)).map (fun n => (n : Int))

def tryFloat : Val → Option Int
  | .vint n => some n
  | .vbool b => some (if b then 1 else 0)
  | .vstr s => parseIntStr s
  | _ => none

/-- Embedding of `datetime.fromisoformat` restricted to `YYYY-MM-DD` dates,
encoded as a comparable number; the verified properties do not depend on the
full ISO-8601 grammar. -/
def parseIso (s : Str) : Option Nat :=
  match s with
  | [y1, y2, y3, y4, h1, m1, m2, h2, d1, d2] =>
      if h1 = '-' ∧ h2 = '-' ∧ [y1, y2, y3, y4, m1, m2, d1, d2].all Char.isDigit then
        some ((((digitsToNatQ [y1, y2, y3, y4]).getD 0) * 100 +
          (digitsToNatQ [m1, m2]).getD 0) * 100 + (digitsToNatQ [d1, d2]).getD 0)
      else none
  | _ => none

/-- The closed comparator table `_OPS`, in its Python iteration order. -/
inductive CmpOp where
  | ge | le | ne | gt | lt
deriving DecidableEq

def opInt : CmpOp → Int → Int → Bool
  | .ge, a, b => decide (a ≥ b)
  | .le, a, b => decide (a ≤ b)
  | .ne, a, b => decide (a ≠ b)
  | .gt, a, b => decide (a > b)
  | .lt, a, b => decide (a < b)

def opNat : CmpOp → Nat → Nat → Bool
  | .ge, a, b => decide (a ≥ b)
  | .le, a, b => decide (a ≤ b)
  | .ne, a, b => decide (a ≠ b)
  | .gt, a, b => decide (a > b)
  | .lt, a, b => decide (a < b)

/-- Embedding of the comparator body: numeric compare, else ISO-date compare,
else `False`. -/
def cmpDo (op : CmpOp) (h : Val) (val : Str) : Bool :=
  match tryFloat h, parseIntStr val with
  | some a, some b => opInt op a b
  | _, _ =>
      match parseIso (pyStr h), parseIso val with
      | some d1, some d2 => opNat op d1 d2
      | _, _ => false

/-- The `_OPS` scan: the first operator that `s` starts with wins. -/
def opCheck (h : Val) (s : Str) : Option Bool :=
  if startsWithL ['>', '='] s then some (cmpDo CmpOp.ge h (pyStrip (s.drop 2)))
  else if startsWithL ['<', '='] s then some (cmpDo CmpOp.le h (pyStrip (s.drop 2)))
  else if startsWithL ['!', '='] s then some (cmpDo CmpOp.ne h (pyStrip (s.drop 2)))
  else if startsWithL ['>'] s then some (cmpDo CmpOp.gt h (pyStrip (s.drop 1)))
  else if startsWithL ['<'] s then some (cmpDo CmpOp.lt h (pyStrip (s.drop 1)))
  else none

/-- Embedding of the wildcard / negation / equality tail of `match`. -/
def wildMatch (s hv : Str) : Bool :=
  if s = ['*'] then true
  else if startsWithL ['*'] s && endsWithL ['*'] s &&
      containsSub ((s.drop 1).dropLast) hv then true
  else if startsWithL ['*'] s && endsWithL (s.drop 1) hv then true
  else if endsWithL ['*'] s && startsWithL s.dropLast hv then true
  else if startsWithL ['!'] s && decide (1 < s.length) then decide (hv ≠ s.drop 1)
  else decide (hv = s)

/-- Scalar branch of `match` (reached when `have` is neither `None` nor a
collection): sanitize string conditions, scan the comparator table, then
wildcards and equality. -/
def scalarMatch (h cond : Val) : Bool :=
  let s : Str := match cond with
    | .vstr s0 => sanit_sql s0
    | c => pyStr c
  match opCheck h s with
  | some b => b
  | none => wildMatch s (pyStr h)

/-- Fuel-indexed embedding of the recursive `match(have, cond, depth)`:
`matchFrom fuel` is `match` at `depth = 10 - fuel`.  Zero fuel is the depth
cap (`depth >= 10` returns `False`). -/
def matchFrom : Nat → Val → Val → Bool
  | 0, _, _ => false
  | _ + 1, .vnone, _ => false
  | fuel + 1, .vlist xs, cond => xs.any (fun it => matchFrom fuel it cond)
  | _ + 1, h, cond => scalarMatch h cond

/-- Embedding of `match(have, cond, depth)` with `_FILTER_MATCH_MAX_DEPTH = 10`. -/
def matchCond (h cond : Val) (depth : Nat) : Bool := matchFrom (10 - depth) h cond

/-- Embedding of `TxtaiStore._lookup_meta`. -/
def lookupMeta (m : List (Str × Val)) (key : Str) : Val :=
  match getA key m with
  | some v => v
  | none =>
      match m.find? (fun kv => decide (sanit_field kv.1 = key)) with
      | some kv => kv.2
      | none => .vnone

/-- Embedding of `TxtaiStore._matches_filters`: per key the conditions are
OR-ed, across keys AND-ed (empty filters accept everything). -/
def matchesFilters (m : List (Str × Val)) (filters : List (Str × List Val)) : Bool :=
  filters.all (fun kv => kv.2.any (fun v => matchCond (lookupMeta m kv.1) v 0))

/-- Nested list values, for exercising the depth cap. -/
def nestVal : Nat → Val → Val
  | 0, v => v
  | n + 1, v => .vlist [nestVal n v]

/-- C8: `matches_filters` terminates on every metadata mapping and filter
(it is a total function of the embedding, defined by structural recursion on
the remaining depth budget): recursion into list elements is capped at depth
10; a value reached at or beyond the cap contributes `false` (in particular a
list nested 10 deep hides a leaf that would otherwise match, while 9 levels
still match); per filter key the conditions are OR-ed and across keys
AND-ed. -/
theorem C8_matches_filters_depth_cap :
    (∀ (h c : Val) (d : Nat), 10 ≤ d → matchCond h c d = false) ∧
    (∀ (xs : List Val) (c : Val) (d : Nat), d < 10 →
      matchCond (Val.vlist xs) c d = xs.any (fun it => matchCond it c (d + 1))) ∧
    (matchCond (nestVal 10 (Val.vstr ['x'])) (Val.vstr ['x']) 0 = false ∧
      matchCond (nestVal 9 (Val.vstr ['x'])) (Val.vstr ['x']) 0 = true) ∧
    (∀ (m : List (Str × Val)) (f : List (Str × List Val)),
      matchesFilters m f =
        f.all (fun kv => kv.2.any (fun v => matchCond (lookupMeta m kv.1) v 0))) := by
  refine ⟨fun h c d hd => ?_, fun xs c d hd => ?_, ⟨by decide, by decide⟩, fun m f => rfl⟩
  · rw [matchCond, Nat.sub_eq_zero_of_le hd]
    rfl
  · have hfuel : 10 - d = (10 - (d + 1)) + 1 := by omega
    rw [matchCond, hfuel]
    rfl

/-- C8 witness: the depth cap and the list-recursion law at concrete inputs. -/
theorem C8_matches_filters_depth_cap_witness :
    matchCond (Val.vstr ['a']) (Val.vstr ['a']) 11 = false ∧
    matchCond (Val.vlist [Val.vstr ['a']]) (Val.vstr ['a']) 3 =
      [Val.vstr ['a']].any (fun it => matchCond it (Val.vstr ['a']) 4) :=
  ⟨C8_matches_filters_depth_cap.1 (Val.vstr ['a']) (Val.vstr ['a']) 11 (by decide),
    C8_matches_filters_depth_cap.2.1 [Val.vstr ['a']] (Val.vstr ['a']) 3 (by decide)⟩

/-
Search pipeline: `TxtaiStore._split_filters`, `_build_sql`, `search` and
`_build_match_reason` (src/pave/stores/txtai_store.py lines 437-468 and
526-668).  The engine (`txtai.Embeddings`) is external: its raw results and
`lookup` replies are parameters of the embedding.
-/

abbrev MetaD := List (Str × Val)

abbrev Filters := List (Str × List Val)

/-- Engine result rows normalized to `(id, score, maybe_text)` triples. -/
abbrev Triple := Option Str × Rat × Option Str

/-- Embedding of `sep.join(parts)`. -/
def joinSep (sep : Str) : List Str → Str
  | [] => []
  | [x] => x
  | x :: rest => x ++ sep ++ joinSep sep rest

/-- Values routed to the post-filter by `_split_filters`: wildcards and
comparator conditions. -/
def isExtendedCond (v : Val) : Bool :=
  match v with
  | .vstr s => startsWithL ['*'] s || endsWithL ['*'] s ||
      startsWithL ['>', '='] s || startsWithL ['<', '='] s ||
      startsWithL ['>'] s || startsWithL ['<'] s || startsWithL ['!', '='] s
  | _ => false

/-- Embedding of `TxtaiStore._split_filters` (each field's value list is
already normalized to a list, as the source does before its inner loop). -/
def splitFilters (filters : Filters) : Filters × Filters :=
  filters.foldl (fun acc kv =>
    let safeKey := sanit_field kv.1
    if safeKey = [] then acc
    else
      let exacts := kv.2.filter (fun v => !(isExtendedCond v))
      let extended := kv.2.filter isExtendedCond
      let pre := if exacts.isEmpty then acc.1 else setA safeKey exacts acc.1
      let pos := if extended.isEmpty then acc.2 else setA safeKey extended acc.2
      (pre, pos)) ([], [])

/-- A negation condition `!value` as recognized by `_build_sql`. -/
def isNegCond (v : Val) : Bool :=
  match v with
  | .vstr s => startsWithL ['!'] s && decide (1 < s.length)
  | _ => false

/-- Embedding of `_sanit_sql(v)` on an arbitrary value (`str(value)` first). -/
def sanitSqlOf (v : Val) : Str := sanit_sql (pyStr v)

/-- WHERE/GROUP BY part of `_build_sql` (everything before the LIMIT). -/
def buildSqlBody (query : Str) (filters : Filters) (columns : List Str)
    (withSimilarity avoidDuplicates : Bool) (maxQueryChars : Int) : Str :=
  let cols := joinSep (", ").toList
    (if columns = [] then
      [("id").toList, ("docid").toList, ("text").toList, ("score").toList]
     else columns)
  let base := ("SELECT ").toList ++ cols ++ (" FROM txtai").toList
  let simWheres : List Str :=
    if withSimilarity ∧ query ≠ [] then
      let lim : Option Int := if maxQueryChars > 0 then some maxQueryChars else none
      [("similar(").toList ++ [quoteChar] ++ sanit_sql_full lim query ++
        [quoteChar] ++ (")").toList]
    else []
  let filterWheres : List Str := filters.foldl (fun acc kv =>
    let safeKey := sanit_field kv.1
    if safeKey = [] then acc
    else
      let ors := kv.2.map (fun v =>
        match v with
        | .vstr s =>
            if startsWithL ['!'] s && decide (1 < s.length) then
              ('[' :: safeKey) ++ ("] <> ").toList ++ [quoteChar] ++
                sanit_sql (s.drop 1) ++ [quoteChar]
            else
              ('[' :: safeKey) ++ ("] = ").toList ++ [quoteChar] ++
                sanit_sql s ++ [quoteChar]
        | w =>
            ('[' :: safeKey) ++ ("] = ").toList ++ [quoteChar] ++
              sanitSqlOf w ++ [quoteChar])
      acc ++ [('(' :: joinSep (" OR ").toList ors) ++ [')']]) []
  let wheres := simWheres ++ filterWheres
  let withWhere :=
    if wheres ≠ [] then
      base ++ (" WHERE ").toList ++ joinSep (" AND ").toList wheres ++
        (" AND id <> ").toList ++ [quoteChar, quoteChar] ++ [' ']
    else base ++ (" WHERE id <> ").toList ++ [quoteChar, quoteChar] ++ [' ']
  if avoidDuplicates ∧ cols ≠ [] then withWhere ++ (" GROUP by ").toList ++ cols
  else withWhere

/-- Embedding of `TxtaiStore._build_sql`. -/
def buildSql (query : Str) (k : Option Int) (filters : Filters) (columns : List Str)
    (withSimilarity avoidDuplicates : Bool) (maxQueryChars : Int) : Str :=
  let body := buildSqlBody query filters columns withSimilarity avoidDuplicates
    maxQueryChars
  match k with
  | some kk => body ++ (" LIMIT ").toList ++ (toString kk).toList
  | none => body

/-- Embedding of Python `int()` truncation toward zero on rationals. -/
def pyIntTrunc (q : Rat) : Int := if 0 ≤ q then q.floor else -((-q).floor)

/-- Embedding of `TxtaiStore._build_match_reason`. -/
def buildMatchReason (query : Str) (score : Rat) (filters : Filters)
    (meta : Option MetaD) : Str :=
  let pct := pyIntTrunc (score * 100)
  let parts1 : List Str :=
    if query ≠ [] then
      [("semantic similarity ").toList ++ (toString pct).toList ++ ['%']]
    else []
  let fparts : List Str := filters.foldl (fun acc kv =>
    match lookupMeta (meta.getD []) kv.1 with
    | .vnone => acc
    | v => acc ++ [kv.1 ++ ['='] ++ pyStr v]) []
  let parts :=
    if filters.isEmpty ∨ fparts.isEmpty then parts1
    else parts1 ++ [("filters: ").toList ++ joinSep (", ").toList fparts]
  if parts.isEmpty then ("matched").toList else joinSep ("; ").toList parts

/-- Embedding of `TxtaiStore._urid_to_fname`. -/
def uridToFname (urid : Str) : Str :=
  (urid.map (fun ch =>
    if ch = '/' ∨ ch = backslashChar ∨ ch = ':' then '_' else ch)) ++ (".txt").toList

/-- The keep loop of `search` step 5: skip empty ids, post-filter against the
sidecar metadata, stop as soon as `budget` rows are kept. -/
def keepAux (metaSide : List (Str × MetaD)) (posf : Filters) :
    Nat → List Triple → List (Str × Rat × Option Str)
  | _, [] => []
  | budget, t :: rest =>
      match t.1 with
      | none => keepAux metaSide posf budget rest
      | some rid =>
          if rid = [] then keepAux metaSide posf budget rest
          else if matchesFilters ((getA rid metaSide).getD []) posf then
            if budget ≤ 1 then [(rid, t.2.1, t.2.2)]
            else (rid, t.2.1, t.2.2) :: keepAux metaSide posf (budget - 1) rest
          else keepAux metaSide posf budget rest

/-- One step of the keep loop as a partial map, for the take/filter law. -/
def keptEntry (metaSide : List (Str × MetaD)) (posf : Filters) (t : Triple) :
    Option (Str × Rat × Option Str) :=
  match t.1 with
  | none => none
  | some rid =>
      if rid = [] then none
      else if matchesFilters ((getA rid metaSide).getD []) posf then
        some (rid, t.2.1, t.2.2)
      else none

/-- Text hydration for a kept row: engine text, else `lookup`, else sidecar. -/
def hydrateText (chunkFiles : List (Str × Str)) (lookupD : List (Str × Val))
    (rid : Str) : Option Str → Val
  | some t => .vstr t
  | none =>
      match getA rid lookupD with
      | some .vnone | none =>
          match getA (uridToFname rid) chunkFiles with
          | some t => .vstr t
          | none => .vnone
      | some v => v

/-- Embedding of `txt.get("text") if isinstance(txt, dict) else txt`. -/
def textOfVal : Val → Val
  | .vdict d => (getA ("text").toList d).getD .vnone
  | v => v

/-- A plain dict as built by `TxtaiStore.search` for each match (source lines
632-642). -/
structure MatchDict where
  id : Str
  score : Rat
  text : Val
  tenant : Str
  collection : Str
  meta : MetaD
  match_reason : Str

/-- The final `out` loop of `search`. -/
def searchOut (tenant collection query : Str) (filters : Filters)
    (metaSide : List (Str × MetaD)) (lookupD : List (Str × Val))
    (chunkFiles : List (Str × Str))
    (kept : List (Str × Rat × Option Str)) : List MatchDict :=
  kept.map (fun t =>
    { id := t.1
      score := t.2.1
      text := textOfVal (hydrateText chunkFiles lookupD t.1 t.2.2)
      tenant := tenant
      collection := collection
      meta := (getA t.1 metaSide).getD []
      match_reason := buildMatchReason query t.2.1 filters (getA t.1 metaSide) })

/-- Result of the embedded `TxtaiStore.search`: the SQL issued to the engine
and the rows it returns to the service layer. -/
structure SearchComputation where
  sql : Str
  kept : List (Str × Rat × Option Str)
  out : List MatchDict

/-- Embedding of `TxtaiStore.search(tenant, collection, query, k, filters)`.
`raw` is the engine's normalized result list, `lookupD` the engine `lookup`
table, `chunkFiles` the sidecar directory contents, `maxQueryChars` the
`vector_store.txtai.max_query_chars` configuration value. -/
def txtaiSearch (tenant collection query : Str) (k : Int) (filters : Filters)
    (maxQueryChars : Int) (raw : List Triple) (metaSide : List (Str × MetaD))
    (lookupD : List (Str × Val)) (chunkFiles : List (Str × Str)) :
    SearchComputation :=
  let kk : Nat := (max 1 k).toNat
  let fetchK : Int := max 50 (max 1 k * 5)
  let pp := splitFilters filters
  let cols : List Str :=
    [("id").toList, ("text").toList, ("score").toList, ("docid").toList]
  let kept := keepAux metaSide pp.2 kk raw
  { sql := buildSql query (some fetchK) pp.1 cols true true maxQueryChars
    kept := kept
    out := searchOut tenant collection query filters metaSide lookupD chunkFiles kept }

theorem keepAux_eq_take_filterMap (metaSide : List (Str × MetaD)) (posf : Filters)
    {budget : Nat} (hb : 1 ≤ budget) (l : List Triple) :
    keepAux metaSide posf budget l =
      (l.filterMap (keptEntry metaSide posf)).take budget := by
  induction l generalizing budget with
  | nil => simp [keepAux]
  | cons t rest ih =>
    obtain ⟨rid?, score, txt⟩ := t
    cases rid? with
    | none => simpa [keepAux, keptEntry] using ih hb
    | some rid =>
      by_cases hempty : rid = []
      · simp [keepAux, keptEntry, hempty, ih hb]
      · by_cases hm : matchesFilters ((getA rid metaSide).getD []) posf = true
        · by_cases hb1 : budget ≤ 1
          · have hbud : budget = 1 := le_antisymm hb1 hb
            subst hbud
            simp [keepAux, keptEntry, hempty, hm]
          · have hb2 : 1 ≤ budget - 1 := by omega
            have hbud : budget = (budget - 1) + 1 := by omega
            simp only [keepAux, keptEntry, hempty, hm, hb1, if_true, if_false,
              ite_true, ite_false, List.filterMap_cons]
            rw [ih hb2]
            conv_rhs => rw [hbud]
            rw [List.take_succ_cons]
        · simp [keepAux, keptEntry, hempty, hm, ih hb]

/-- C7: for every search, the engine SQL is issued with LIMIT equal to
`fetch_k = max(50, 5 * max(1, k))`, and the kept rows are exactly the first
`max(1, k)` post-filter survivors of the engine results (the loop stops as
soon as that many rows are kept), so at most `max(1, k)` results are returned
to the caller. -/
theorem C7_search_overfetch_and_topk :
    ∀ (tenant collection query : Str) (k : Int) (filters : Filters)
      (mqc : Int) (raw : List Triple) (metaSide : List (Str × MetaD))
      (lookupD : List (Str × Val)) (chunkFiles : List (Str × Str)),
      (∃ pre, (txtaiSearch tenant collection query k filters mqc raw metaSide
          lookupD chunkFiles).sql =
        pre ++ (" LIMIT ").toList ++ (toString (max 50 (5 * max 1 k))).toList) ∧
      (txtaiSearch tenant collection query k filters mqc raw metaSide lookupD
          chunkFiles).kept =
        (raw.filterMap (keptEntry metaSide (splitFilters filters).2)).take
          (max 1 k).toNat ∧
      (txtaiSearch tenant collection query k filters mqc raw metaSide lookupD
          chunkFiles).out.length ≤ (max 1 k).toNat := by
  intro tenant collection query k filters mqc raw metaSide lookupD chunkFiles
  have hk1 : (1 : Int) ≤ max 1 k := le_max_left _ _
  have hkk : 1 ≤ (max 1 k).toNat := by omega
  have hkept : (txtaiSearch tenant collection query k filters mqc raw metaSide
      lookupD chunkFiles).kept =
      (raw.filterMap (keptEntry metaSide (splitFilters filters).2)).take
        (max 1 k).toNat :=
    keepAux_eq_take_filterMap metaSide (splitFilters filters).2 hkk raw
  refine ⟨⟨buildSqlBody query (splitFilters filters).1
      [("id").toList, ("text").toList, ("score").toList, ("docid").toList]
      true true mqc, ?_⟩, hkept, ?_⟩
  · simp only [txtaiSearch, buildSql]
    rw [Int.mul_comm (max 1 k) 5]
  · have hout : (txtaiSearch tenant collection query k filters mqc raw metaSide
        lookupD chunkFiles).out =
        searchOut tenant collection query filters metaSide lookupD chunkFiles
          ((txtaiSearch tenant collection query k filters mqc raw metaSide
            lookupD chunkFiles).kept) := rfl
    rw [hout, searchOut, List.length_map, hkept, List.length_take]
    exact min_le_left _ _

/-
Service-layer search envelope (src/pave/service.py lines 207-254).  The store
returns a list of objects; the service calls `.to_dict()` on each.  Python
dynamic dispatch is embedded by tagging each result with its runtime type:
`pave.stores.base.SearchResult` (a dataclass defining `to_dict`) or the plain
dict literal that `TxtaiStore.search` appends at lines 632-642.
-/

/-- A store search hit together with its Python runtime type. -/
inductive StoreHit where
  | pyDict (d : MatchDict)
  | dataclass (d : MatchDict)

/-- Embedding of the attribute access `r.to_dict()`: defined on the
`SearchResult` dataclass, an `AttributeError` on a plain dict. -/
def callToDict : StoreHit → Except Str MatchDict
  | .dataclass d => .ok d
  | .pyDict _ => .error ("AttributeError: dict object has no attribute to_dict").toList

/-- Embedding of the list comprehension `[r.to_dict() for r in top]`: the
first raised exception aborts the comprehension. -/
def mapToDict : List StoreHit → Except Str (List MatchDict)
  | [] => .ok []
  | h :: rest =>
      match callToDict h with
      | .error e => .error e
      | .ok d =>
          match mapToDict rest with
          | .error e => .error e
          | .ok ds => .ok (d :: ds)

/-- The success envelope of `service.search`. -/
structure SearchEnvelope where
  matchesF : List MatchDict  -- field `matches` of the envelope (`matches` is reserved in Lean)
  latency_ms : Rat
  request_id : Option Str

/-- Embedding of the non-common-collection branch of `service.search`
(lines 238-254): any exception in the body is re-raised as
`ServiceError("search_failed", ...)`. -/
def svc_search (top : List StoreHit) (latency : Rat) (requestId : Option Str) :
    Except (Str × Str) SearchEnvelope :=
  match mapToDict top with
  | .ok ms => .ok { matchesF := ms, latency_ms := latency, request_id := requestId }
  | .error msg => .error (("search_failed").toList, msg)

/-- What `TxtaiStore.search` hands to the service layer: each match is a
plain dict (`out.append({...})`, txtai_store.py lines 632-642). -/
def txtaiSearchHits (tenant collection query : Str) (k : Int) (filters : Filters)
    (maxQueryChars : Int) (raw : List Triple) (metaSide : List (Str × MetaD))
    (lookupD : List (Str × Val)) (chunkFiles : List (Str × Str)) :
    List StoreHit :=
  (txtaiSearch tenant collection query k filters maxQueryChars raw metaSide
    lookupD chunkFiles).out.map StoreHit.pyDict

/-- C1 (code bug): with the default store, a search whose store results are
non-empty never converts into the success envelope: `service.search` calls
`r.to_dict()` on each element, `TxtaiStore.search` returns plain dicts, and
the resulting `AttributeError` becomes `ServiceError("search_failed")` (HTTP
500).  Only an empty result list yields the envelope.  Evaluated here at a
concrete one-hit store state. -/
theorem C1_search_envelope_bug :
    svc_search
      (txtaiSearchHits ("acme").toList ("txts").toList ("submarine").toList 2 []
        512
        [(some ("VERNE::chunk_0").toList, 1, some ("Captain Nemo").toList)]
        [(("VERNE::chunk_0").toList, [(("docid").toList, Val.vstr ("VERNE").toList)])]
        [] [])
      3 (some ("req-1").toList) =
      .error (("search_failed").toList,
        ("AttributeError: dict object has no attribute to_dict").toList) ∧
    svc_search [] 3 none =
      .ok { matchesF := [], latency_ms := 3, request_id := none } := by
  constructor
  · rfl
  · rfl

/-
Per-collection persistent state and the document-level mutators
`TxtaiStore.purge_doc` / `TxtaiStore.index_records`
(src/pave/stores/txtai_store.py lines 232-371), plus the PDF branch of
`preprocess` and the record assembly of `service.ingest_document`
(src/pave/preprocess.py lines 139-143, src/pave/service.py lines 159-181).
-/

/-- Python dict construction from a pair sequence: later assignments to the
same key overwrite earlier ones. -/
def pairsToDict {V : Type} (ps : List (Str × V)) : List (Str × V) :=
  ps.foldl (fun d kv => setA kv.1 kv.2 d) []

mutual

/-- Embedding of `TxtaiStore._sanit_meta_value`. -/
def sanitMetaValue : Val → Val
  | .vdict m => .vdict (pairsToDict (sanitMetaPairs m))
  | .vlist xs => .vlist (sanitMetaList xs)
  | .vint n => .vint n
  | .vbool b => .vbool b
  | .vnone => .vnone
  | .vstr s => .vstr (sanit_sql s)

def sanitMetaList : List Val → List Val
  | [] => []
  | v :: rest => sanitMetaValue v :: sanitMetaList rest

/-- Embedding of the loop body of `TxtaiStore._sanit_meta_dict`: sanitize
keys, drop keys sanitizing to empty and the key `text`, sanitize values. -/
def sanitMetaPairs : List (Str × Val) → List (Str × Val)
  | [] => []
  | (k, v) :: rest =>
      let safeKey := sanit_field k
      if safeKey = [] ∨ safeKey = ("text").toList then sanitMetaPairs rest
      else (safeKey, sanitMetaValue v) :: sanitMetaPairs rest

end

/-- Embedding of `TxtaiStore._sanit_meta_dict`. -/
def sanitMetaDict (m : MetaD) : MetaD := pairsToDict (sanitMetaPairs m)

/-- Per-collection on-disk and engine state: `catalog.json`, `meta.json`, the
`chunks/` sidecar directory (keyed by escaped filename) and the engine's
upserted records (text and indexed metadata, keyed by id). -/
structure ColState where
  catalog : List (Str × List Str)
  metaSide : List (Str × MetaD)
  chunkFiles : List (Str × Str)
  engine : List (Str × (Str × MetaD))

def emptyColState : ColState :=
  { catalog := [], metaSide := [], chunkFiles := [], engine := [] }

/-- Embedding of `TxtaiStore.purge_doc`: no-op returning 0 when the catalog
entry is empty or absent; otherwise removes this docid's metadata entries,
sidecar files (by escaped filename), catalog entry and engine entries (the
happy path of `em.delete(ids)`; an engine without `delete` skips silently)
and returns the number of chunk ids that were cataloged. -/
def purge_doc (st : ColState) (docid : Str) : ColState × Nat :=
  let ids := (getA docid st.catalog).getD []
  if ids.isEmpty then (st, 0)
  else
    ({ catalog := eraseA docid st.catalog
       metaSide := ids.foldl (fun m rid => eraseA rid m) st.metaSide
       chunkFiles := ids.foldl (fun f rid => eraseA (uridToFname rid) f) st.chunkFiles
       engine := ids.foldl (fun e rid => eraseA rid e) st.engine }, ids.length)

/-- A record as fed to `index_records`: the `(rid, text, meta)` triple of
`pave.stores.base.Record` (dict-shaped records are normalized by the source
to the same three components before the checks modelled here). -/
structure PyRecord where
  rid : Str
  txt : Option Str
  md : MetaD

/-- Loop state of `index_records`: the in-memory `meta_side`, the sidecar
directory (written record by record), `record_ids` and `prepared`. -/
structure IRAcc where
  metaSide : List (Str × MetaD)
  chunkFiles : List (Str × Str)
  recordIds : List Str
  prepared : List (Str × (Str × MetaD))

/-- Normalized chunk id: forced to start with `<docid>::`. -/
def normRid (docid rid : Str) : Str :=
  if startsWithL (docid ++ ("::").toList) rid then rid
  else docid ++ ("::").toList ++ rid

/-- One iteration of the `index_records` record loop: skip when the id is
empty or the text is `None`; otherwise force `meta["docid"]`, sanitize the
metadata, normalize the id, record metadata and sidecar text. -/
def irStep (docid : Str) (acc : IRAcc) (r : PyRecord) : IRAcc :=
  if r.rid = [] ∨ r.txt = none then acc
  else
    let safeMeta := sanitMetaDict (setA ("docid").toList (Val.vstr docid) r.md)
    let txt := r.txt.getD []
    let rid := normRid docid r.rid
    let mdForIndex := eraseA ("text").toList safeMeta
    { metaSide := setA rid safeMeta acc.metaSide
      chunkFiles := setA (uridToFname rid) txt acc.chunkFiles
      recordIds := acc.recordIds ++ [rid]
      prepared := acc.prepared ++ [(rid, (txt, mdForIndex))] }

/-- Embedding of `TxtaiStore.index_records`: runs the record loop; if nothing
was prepared returns 0 (sidecar writes of kept records persist either way);
otherwise sets `catalog[docid] = record_ids`, saves metadata, upserts the
prepared records into the engine and returns their count. -/
def index_records (st : ColState) (docid : Str) (records : List PyRecord) :
    ColState × Nat :=
  let acc := records.foldl (irStep docid)
    { metaSide := st.metaSide, chunkFiles := st.chunkFiles,
      recordIds := [], prepared := [] }
  if acc.prepared.isEmpty then ({ st with chunkFiles := acc.chunkFiles }, 0)
  else
    ({ catalog := setA docid acc.recordIds st.catalog
       metaSide := acc.metaSide
       chunkFiles := acc.chunkFiles
       engine := acc.prepared.foldl (fun e p => setA p.1 p.2 e) st.engine },
     acc.prepared.length)

/-- The ids kept by the `index_records` normalization, record by record. -/
def normIds (docid : Str) (records : List PyRecord) : List Str :=
  records.filterMap (fun r =>
    if r.rid = [] ∨ r.txt = none then none else some (normRid docid r.rid))

/-- Embedding of the PDF branch of `preprocess`: one chunk per page, id
`page_<n>`, extra `{page: n}`; `page.extract_text()` is external, so the page
texts are a parameter; `or ""` maps a `None` extraction to the empty string. -/
def pdfChunks (pageTexts : List (Option Str)) : List (Str × Str × MetaD) :=
  pageTexts.enum.map (fun t =>
    (("page_").toList ++ (toString t.1).toList,
     (t.2.getD [], [(("page").toList, Val.vint t.1)])))

/-- Embedding of the record assembly in `service.ingest_document`: every
chunk becomes `(baseid::local_id, text, {docid, filename, ingested_at} ∪
client-meta ∪ per-chunk-extra)`. -/
def buildIngestRecords (baseid filename now : Str) (metaDoc : MetaD)
    (chunks : List (Str × Str × MetaD)) : List PyRecord :=
  chunks.map (fun c =>
    { rid := baseid ++ ("::").toList ++ c.1
      txt := some c.2.1
      md := pairsToDict
        ([(("docid").toList, Val.vstr baseid),
          (("filename").toList, Val.vstr filename),
          (("ingested_at").toList, Val.vstr now)] ++ metaDoc ++ c.2.2) })

theorem getA_foldl_erase_map {V : Type} (f : Str → Str) (l : List Str)
    (m : List (Str × V)) (k : Str) :
    getA k (l.foldl (fun acc r => eraseA (f r) acc) m) =
      if k ∈ l.map f then none else getA k m := by
  induction l generalizing m with
  | nil => simp
  | cons r rest ih =>
    simp only [List.foldl_cons, List.map_cons, List.mem_cons]
    rw [ih]
    by_cases hk : k ∈ rest.map f
    · simp [hk]
    · by_cases hkr : k = f r
      · simp [hk, hkr]
      · simp [hk, hkr, getA_eraseA_other _ _ _ hkr]

theorem getA_foldl_setA_other {V : Type} (ps : List (Str × V)) (k : Str) :
    ∀ m, k ∉ ps.map Prod.fst →
      getA k (ps.foldl (fun acc p => setA p.1 p.2 acc) m) = getA k m := by
  induction ps with
  | nil =>
    intro m _
    rfl
  | cons p rest ih =>
    intro m hk
    simp only [List.map_cons, List.mem_cons, not_or] at hk
    simp only [List.foldl_cons]
    rw [ih _ hk.2, getA_setA_other _ _ _ _ hk.1]

theorem irFold_recordIds (docid : Str) (records : List PyRecord) (acc : IRAcc) :
    (records.foldl (irStep docid) acc).recordIds =
      acc.recordIds ++ normIds docid records := by
  induction records generalizing acc with
  | nil => simp [normIds]
  | cons r rest ih =>
    by_cases h : r.rid = [] ∨ r.txt = none
    · simp [List.foldl_cons, irStep, h, ih, normIds, List.filterMap_cons]
    · simp [List.foldl_cons, irStep, h, ih, normIds, List.filterMap_cons,
        List.append_assoc]

theorem irFold_prepared_fst (docid : Str) (records : List PyRecord) (acc : IRAcc) :
    ((records.foldl (irStep docid) acc).prepared).map Prod.fst =
      (acc.prepared.map Prod.fst) ++ normIds docid records := by
  induction records generalizing acc with
  | nil => simp [normIds]
  | cons r rest ih =>
    by_cases h : r.rid = [] ∨ r.txt = none
    · simp [List.foldl_cons, irStep, h, ih, normIds, List.filterMap_cons]
    · simp [List.foldl_cons, irStep, h, ih, normIds, List.filterMap_cons,
        List.append_assoc]

theorem irFold_metaSide_other (docid : Str) (records : List PyRecord)
    (acc : IRAcc) (k : Str) (hk : k ∉ normIds docid records) :
    getA k ((records.foldl (irStep docid) acc).metaSide) = getA k acc.metaSide := by
  induction records generalizing acc with
  | nil => rfl
  | cons r rest ih =>
    by_cases h : r.rid = [] ∨ r.txt = none
    · have hk' : k ∉ normIds docid rest := by
        simpa [normIds, List.filterMap_cons, h] using hk
      simp only [List.foldl_cons, irStep, if_pos h]
      exact ih _ hk'
    · have hk2 : ¬(k = normRid docid r.rid ∨ k ∈ normIds docid rest) := by
        simpa [normIds, List.filterMap_cons, h] using hk
      push_neg at hk2
      simp only [List.foldl_cons, irStep, if_neg h]
      rw [ih _ hk2.2]
      exact getA_setA_other _ _ _ _ hk2.1

theorem irFold_chunkFiles_other (docid : Str) (records : List PyRecord)
    (acc : IRAcc) (f : Str)
    (hf : f ∉ (normIds docid records).map uridToFname) :
    getA f ((records.foldl (irStep docid) acc).chunkFiles) =
      getA f acc.chunkFiles := by
  induction records generalizing acc with
  | nil => rfl
  | cons r rest ih =>
    by_cases h : r.rid = [] ∨ r.txt = none
    · have hf' : f ∉ (normIds docid rest).map uridToFname := by
        simpa [normIds, List.filterMap_cons, h] using hf
      simp only [List.foldl_cons, irStep, if_pos h]
      exact ih _ hf'
    · have hf2 : ¬(f = uridToFname (normRid docid r.rid) ∨
          f ∈ (normIds docid rest).map uridToFname) := by
        simpa [normIds, List.filterMap_cons, h] using hf
      push_neg at hf2
      simp only [List.foldl_cons, irStep, if_neg h]
      rw [ih _ hf2.2]
      exact getA_setA_other _ _ _ _ hf2.1

theorem index_records_count (st : ColState) (docid : Str) (records : List PyRecord) :
    (index_records st docid records).2 = (normIds docid records).length := by
  have hfst := irFold_prepared_fst docid records
    { metaSide := st.metaSide, chunkFiles := st.chunkFiles,
      recordIds := [], prepared := [] }
  simp only [List.map_nil, List.nil_append] at hfst
  simp only [index_records]
  by_cases hp : ((records.foldl (irStep docid)
      { metaSide := st.metaSide, chunkFiles := st.chunkFiles,
        recordIds := [], prepared := [] }).prepared).isEmpty
  · have hnil := List.isEmpty_iff.mp hp
    rw [hnil] at hfst
    simp [hp, ← hfst]
  · simp only [hp, Bool.false_eq_true, if_false]
    rw [← hfst, List.length_map]

theorem index_records_catalog (st : ColState) (docid : Str)
    (records : List PyRecord) (h : normIds docid records ≠ []) :
    getA docid (index_records st docid records).1.catalog =
      some (normIds docid records) := by
  have hfst := irFold_prepared_fst docid records
    { metaSide := st.metaSide, chunkFiles := st.chunkFiles,
      recordIds := [], prepared := [] }
  have hrec := irFold_recordIds docid records
    { metaSide := st.metaSide, chunkFiles := st.chunkFiles,
      recordIds := [], prepared := [] }
  simp only [List.map_nil, List.nil_append] at hfst
  simp only [List.nil_append] at hrec
  simp only [index_records]
  by_cases hp : ((records.foldl (irStep docid)
      { metaSide := st.metaSide, chunkFiles := st.chunkFiles,
        recordIds := [], prepared := [] }).prepared).isEmpty
  · exact absurd (by rw [← hfst, List.isEmpty_iff.mp hp]; rfl) h
  · simp only [hp, Bool.false_eq_true, if_false]
    rw [hrec]
    exact getA_setA_same _ _ _

theorem index_records_metaSide_other (st : ColState) (docid : Str)
    (records : List PyRecord) (k : Str) (hk : k ∉ normIds docid records) :
    getA k (index_records st docid records).1.metaSide = getA k st.metaSide := by
  have hmeta := irFold_metaSide_other docid records
    { metaSide := st.metaSide, chunkFiles := st.chunkFiles,
      recordIds := [], prepared := [] } k hk
  simp only [index_records]
  by_cases hp : ((records.foldl (irStep docid)
      { metaSide := st.metaSide, chunkFiles := st.chunkFiles,
        recordIds := [], prepared := [] }).prepared).isEmpty
  · simp [hp]
  · simp only [hp, Bool.false_eq_true, if_false]
    exact hmeta

theorem index_records_engine_other (st : ColState) (docid : Str)
    (records : List PyRecord) (k : Str) (hk : k ∉ normIds docid records) :
    getA k (index_records st docid records).1.engine = getA k st.engine := by
  have hfst := irFold_prepared_fst docid records
    { metaSide := st.metaSide, chunkFiles := st.chunkFiles,
      recordIds := [], prepared := [] }
  simp only [List.map_nil, List.nil_append] at hfst
  simp only [index_records]
  by_cases hp : ((records.foldl (irStep docid)
      { metaSide := st.metaSide, chunkFiles := st.chunkFiles,
        recordIds := [], prepared := [] }).prepared).isEmpty
  · simp [hp]
  · simp only [hp, Bool.false_eq_true, if_false]
    exact getA_foldl_setA_other _ _ _ (by rw [hfst]; exact hk)

theorem purge_doc_count (st : ColState) (docid : Str) :
    (purge_doc st docid).2 = ((getA docid st.catalog).getD []).length := by
  simp only [purge_doc]
  by_cases h : ((getA docid st.catalog).getD []).isEmpty
  · simp [h, List.isEmpty_iff.mp h]
  · simp [h]

theorem purge_doc_removed (st : ColState) (docid : Str) :
    ∀ rid ∈ (getA docid st.catalog).getD [],
      getA rid (purge_doc st docid).1.metaSide = none ∧
      getA rid (purge_doc st docid).1.engine = none ∧
      getA (uridToFname rid) (purge_doc st docid).1.chunkFiles = none := by
  intro rid hrid
  have hne : ¬((getA docid st.catalog).getD []).isEmpty := by
    intro habs
    rw [List.isEmpty_iff.mp habs] at hrid
    cases hrid
  simp only [purge_doc, hne, Bool.false_eq_true, if_false]
  refine ⟨?_, ?_, ?_⟩
  · rw [show (fun m rid => eraseA rid m) = (fun m r => eraseA (id r) m) from rfl,
      getA_foldl_erase_map]
    simp [hrid]
  · rw [show (fun m rid => eraseA rid m) = (fun m r => eraseA (id r) m) from rfl,
      getA_foldl_erase_map]
    simp [hrid]
  · rw [getA_foldl_erase_map]
    simp only [if_pos (List.mem_map_of_mem uridToFname hrid)]

theorem purge_doc_catalog_gone (st : ColState) (docid : Str) :
    (getA docid (purge_doc st docid).1.catalog).getD [] = [] := by
  simp only [purge_doc]
  by_cases h : ((getA docid st.catalog).getD []).isEmpty
  · simp [h, List.isEmpty_iff.mp h]
  · simp [h]

theorem purge_doc_frame_catalog (st : ColState) (docid d : Str) (hd : d ≠ docid) :
    getA d (purge_doc st docid).1.catalog = getA d st.catalog := by
  simp only [purge_doc]
  by_cases h : ((getA docid st.catalog).getD []).isEmpty
  · simp [h]
  · simp [h, getA_eraseA_other _ _ _ hd]

theorem purge_doc_frame_meta (st : ColState) (docid k : Str)
    (hk : k ∉ (getA docid st.catalog).getD []) :
    getA k (purge_doc st docid).1.metaSide = getA k st.metaSide := by
  simp only [purge_doc]
  by_cases h : ((getA docid st.catalog).getD []).isEmpty
  · simp [h]
  · simp only [h, Bool.false_eq_true, if_false]
    rw [show (fun m rid => eraseA rid m) = (fun m r => eraseA (id r) m) from rfl,
      getA_foldl_erase_map]
    simp [hk]

theorem purge_doc_frame_chunks (st : ColState) (docid f : Str)
    (hf : f ∉ ((getA docid st.catalog).getD []).map uridToFname) :
    getA f (purge_doc st docid).1.chunkFiles = getA f st.chunkFiles := by
  simp only [purge_doc]
  by_cases h : ((getA docid st.catalog).getD []).isEmpty
  · simp [h]
  · simp only [h, Bool.false_eq_true, if_false]
    rw [getA_foldl_erase_map]
    simp [hf]

theorem purge_doc_absent (st : ColState) (docid : Str)
    (h : (getA docid st.catalog).getD [] = []) : purge_doc st docid = (st, 0) := by
  simp [purge_doc, h]

/-- The records produced by ingesting a one-page PDF whose page yields no
text. -/
def c3Records : List PyRecord :=
  buildIngestRecords (("D").toList) (("F.PDF").toList)
    (("2026-01-01T00:00:00Z").toList) [] (pdfChunks [some []])

/-- C3 counterexample: a PDF page yielding no text becomes a record with
empty-string text, which `index_records` does not skip (it only skips ids
that are empty and texts that are `None`): the chunk is indexed (count 1),
cataloged, gets a metadata entry and an empty sidecar file. -/
theorem C3_empty_text_counterexample :
    (index_records emptyColState (("D").toList) c3Records).2 = 1 ∧
    getA (("D").toList)
      (index_records emptyColState (("D").toList) c3Records).1.catalog =
      some [("D::page_0").toList] ∧
    getA (uridToFname (("D::page_0").toList))
      (index_records emptyColState (("D").toList) c3Records).1.chunkFiles =
      some [] ∧
    (getA (("D::page_0").toList)
      (index_records emptyColState (("D").toList) c3Records).1.metaSide).isSome
      = true := by
  exact ⟨rfl, rfl, rfl, rfl⟩

/-- C3 (amended): `index_records` skips a record iff its id is empty or its
text is nil (`None`); empty-string text is not skipped, so a PDF page that
yields no text produces an indexed chunk with empty text, an empty sidecar
file, and catalog and metadata entries. -/
theorem C3_empty_text_amended :
    (∀ (docid : Str) (r : PyRecord),
      normIds docid [r] = [] ↔ (r.rid = [] ∨ r.txt = none)) ∧
    (∀ (st : ColState) (docid : Str) (records : List PyRecord),
      (index_records st docid records).2 = (normIds docid records).length) ∧
    (∀ (st : ColState) (docid : Str) (records : List PyRecord),
      normIds docid records ≠ [] →
      getA docid (index_records st docid records).1.catalog =
        some (normIds docid records)) ∧
    (∀ (st : ColState) (docid : Str) (r : PyRecord),
      r.rid ≠ [] → r.txt = some [] →
      getA (uridToFname (normRid docid r.rid))
        (index_records st docid [r]).1.chunkFiles = some []) := by
  refine ⟨fun docid r => ?_, index_records_count, index_records_catalog,
    fun st docid r hr ht => ?_⟩
  · by_cases h : r.rid = [] ∨ r.txt = none <;>
      simp [normIds, List.filterMap_cons, h]
  · have h : ¬(r.rid = [] ∨ r.txt = none) := by simp [hr, ht]
    simp only [index_records, List.foldl_cons, List.foldl_nil, irStep, if_neg h]
    simp [ht]

/-- C3 witness: the amended statement at a concrete empty-text record. -/
theorem C3_empty_text_amended_witness :
    getA (("D").toList) (index_records emptyColState (("D").toList)
        [{ rid := ("p0").toList, txt := some [], md := [] }]).1.catalog =
      some (normIds (("D").toList)
        [{ rid := ("p0").toList, txt := some [], md := [] }]) ∧
    getA (uridToFname (normRid (("D").toList) (("p0").toList)))
      (index_records emptyColState (("D").toList)
        [{ rid := ("p0").toList, txt := some [], md := [] }]).1.chunkFiles =
      some [] :=
  ⟨C3_empty_text_amended.2.2.1 emptyColState (("D").toList)
      [{ rid := ("p0").toList, txt := some [], md := [] }] (by decide),
   C3_empty_text_amended.2.2.2 emptyColState (("D").toList)
      { rid := ("p0").toList, txt := some [], md := [] } (by decide) rfl⟩

/-- C6: re-ingestion is a full replace.  The purge removes every previously
cataloged chunk id of the docid from the metadata map, the engine and the
sidecar directory and empties its catalog entry; `index_records` then sets
the catalog entry to exactly the normalized new chunk ids; an old chunk id
not among the new ones stays absent from the metadata map and the engine. -/
theorem C6_reingest_full_replace :
    ∀ (st : ColState) (docid : Str) (records : List PyRecord),
      (∀ rid ∈ (getA docid st.catalog).getD [],
        getA rid (purge_doc st docid).1.metaSide = none ∧
        getA rid (purge_doc st docid).1.engine = none ∧
        getA (uridToFname rid) (purge_doc st docid).1.chunkFiles = none) ∧
      (getA docid (purge_doc st docid).1.catalog).getD [] = [] ∧
      (normIds docid records ≠ [] →
        getA docid
          (index_records (purge_doc st docid).1 docid records).1.catalog =
          some (normIds docid records)) ∧
      (∀ rid ∈ (getA docid st.catalog).getD [], rid ∉ normIds docid records →
        getA rid
          (index_records (purge_doc st docid).1 docid records).1.metaSide =
          none ∧
        getA rid
          (index_records (purge_doc st docid).1 docid records).1.engine =
          none) := by
  intro st docid records
  refine ⟨purge_doc_removed st docid, purge_doc_catalog_gone st docid,
    fun h => index_records_catalog _ _ _ h, fun rid hrid hnot => ?_⟩
  obtain ⟨hm, he, _⟩ := purge_doc_removed st docid rid hrid
  exact ⟨by rw [index_records_metaSide_other _ _ _ _ hnot, hm],
    by rw [index_records_engine_other _ _ _ _ hnot, he]⟩

/-- A collection holding one previously ingested chunk of document `D`. -/
def c6State : ColState :=
  { catalog := [((("D").toList), [("D::old").toList])]
    metaSide := [((("D::old").toList), [])]
    chunkFiles := [(uridToFname (("D::old").toList), ("x").toList)]
    engine := [((("D::old").toList), (("x").toList, []))] }

def c6Records : List PyRecord :=
  [{ rid := ("new").toList, txt := some (("t").toList), md := [] }]

/-- C6 witness: the replacement behavior at a concrete re-ingest. -/
theorem C6_reingest_full_replace_witness :
    getA (("D::old").toList)
      (index_records (purge_doc c6State (("D").toList)).1 (("D").toList)
        c6Records).1.metaSide = none ∧
    getA (("D").toList)
      (index_records (purge_doc c6State (("D").toList)).1 (("D").toList)
        c6Records).1.catalog = some (normIds (("D").toList) c6Records) :=
  ⟨((C6_reingest_full_replace c6State (("D").toList) c6Records).2.2.2
      (("D::old").toList) (by decide) (by decide)).1,
   (C6_reingest_full_replace c6State (("D").toList) c6Records).2.2.1
      (by decide)⟩

/-- Two documents whose chunk ids escape to the same sidecar filename:
`A::_c` and `A_::c` both give `A___c.txt`. -/
def c10State : ColState :=
  { catalog := [((("A").toList), [("A::_c").toList]),
                ((("A_").toList), [("A_::c").toList])]
    metaSide := [((("A::_c").toList), []), ((("A_::c").toList), [])]
    chunkFiles := [(uridToFname (("A::_c").toList), ("x").toList)]
    engine := [] }

/-- C10 counterexample: the `/ \ :` → `_` filename escape collides across
docids, so purging document `A` deletes the sidecar file that also backs
document `A_`'s still-cataloged chunk `A_::c`. -/
theorem C10_purge_frame_counterexample :
    getA (uridToFname (("A_::c").toList)) c10State.chunkFiles =
      some (("x").toList) ∧
    getA (uridToFname (("A_::c").toList))
      (purge_doc c10State (("A").toList)).1.chunkFiles = none ∧
    (("A_::c").toList) ∈
      (getA (("A_").toList)
        (purge_doc c10State (("A").toList)).1.catalog).getD [] := by
  exact ⟨rfl, rfl, by decide⟩

/-- C10 (amended): `purge_doc` leaves the catalog entries and metadata
entries of every other docid unchanged, and leaves a sidecar file unchanged
provided its name differs from the escaped filenames of the purged chunk ids
(the escape can collide across docids); when the docid has no catalog entry
the state is returned unchanged with 0; otherwise the return value is the
number of chunk ids previously cataloged for the docid. -/
theorem C10_purge_frame_amended :
    ∀ (st : ColState) (docid : Str),
      ((getA docid st.catalog).getD [] = [] → purge_doc st docid = (st, 0)) ∧
      (purge_doc st docid).2 = ((getA docid st.catalog).getD []).length ∧
      (∀ d, d ≠ docid →
        getA d (purge_doc st docid).1.catalog = getA d st.catalog) ∧
      (∀ k, k ∉ (getA docid st.catalog).getD [] →
        getA k (purge_doc st docid).1.metaSide = getA k st.metaSide) ∧
      (∀ f, f ∉ ((getA docid st.catalog).getD []).map uridToFname →
        getA f (purge_doc st docid).1.chunkFiles = getA f st.chunkFiles) :=
  fun st docid =>
    ⟨purge_doc_absent st docid, purge_doc_count st docid,
     fun d hd => purge_doc_frame_catalog st docid d hd,
     fun k hk => purge_doc_frame_meta st docid k hk,
     fun f hf => purge_doc_frame_chunks st docid f hf⟩

/-- C10 witness: the frame conditions at the concrete collision state. -/
theorem C10_purge_frame_amended_witness :
    getA (("A_").toList) (purge_doc c10State (("A").toList)).1.catalog =
      getA (("A_").toList) c10State.catalog ∧
    getA (("A_::c").toList) (purge_doc c10State (("A").toList)).1.metaSide =
      getA (("A_::c").toList) c10State.metaSide ∧
    purge_doc c10State (("B").toList) = (c10State, 0) :=
  ⟨(C10_purge_frame_amended c10State (("A").toList)).2.2.1 (("A_").toList)
      (by decide),
   (C10_purge_frame_amended c10State (("A").toList)).2.2.2.1 (("A_::c").toList)
      (by decide),
   (C10_purge_frame_amended c10State (("B").toList)).1 (by decide)⟩

/-
Collection rename: `TxtaiStore.rename_collection` (txtai_store.py 161-191),
`service.rename_collection` (service.py 70-116) and the HTTP status table in
the `rename_collection` handler (main.py 474-505).
-/

inductive PathState where
  | absent | dir | file
deriving DecidableEq

/-- Per-tenant filesystem view at collection granularity plus the in-memory
`_emb` handle map; handle identity is abstracted to a number. -/
structure RenameEnv where
  fs : List (Str × PathState)
  handles : List (Str × Nat)

def getPS (env : RenameEnv) (name : Str) : PathState :=
  (getA name env.fs).getD .absent

inductive RenameErr where
  | sameName | notFound | conflict
deriving DecidableEq

/-- Embedding of `TxtaiStore.rename_collection`: same-name check, pre-checks
under both locks (`old` must be a directory, `new` must not exist), atomic
directory rename, handle rekey when present. -/
def store_rename_collection (env : RenameEnv) (old_name new_name : Str) :
    Except RenameErr RenameEnv :=
  if old_name = new_name then .error .sameName
  else if getPS env old_name ≠ .dir then .error .notFound
  else if getPS env new_name ≠ .absent then .error .conflict
  else .ok
    { fs := setA new_name .dir (setA old_name .absent env.fs)
      handles :=
        match getA old_name env.handles with
        | some h => setA new_name h (eraseA old_name env.handles)
        | none => env.handles }

/-- A service-layer error: code plus the `error_type` used for the HTTP map. -/
structure SvcError where
  code : Str
  error_type : Str

/-- Embedding of `service.rename_collection`: the service checks
`old == new` itself; store `ValueError`s are mapped by message substring
("does not exist" / "already exists", anything else invalid). -/
def svc_rename_collection (env : RenameEnv) (old_name new_name : Str) :
    Except SvcError RenameEnv :=
  if old_name = new_name then
    .error { code := ("rename_invalid").toList, error_type := ("invalid").toList }
  else
    match store_rename_collection env old_name new_name with
    | .ok env' => .ok env'
    | .error .notFound =>
        .error { code := ("collection_not_found").toList,
                 error_type := ("not_found").toList }
    | .error .conflict =>
        .error { code := ("collection_conflict").toList,
                 error_type := ("conflict").toList }
    | .error .sameName =>
        .error { code := ("rename_invalid").toList,
                 error_type := ("invalid").toList }

/-- The `status_map` of the rename handler in main.py (default 500). -/
def renameStatus (error_type : Str) : Nat :=
  if error_type = ("not_found").toList then 404
  else if error_type = ("conflict").toList then 409
  else if error_type = ("invalid").toList then 400
  else 500

/-- C5: rename fails with `rename_invalid` (HTTP 400) when old = new, with
`collection_not_found` (404) when the old directory is missing, with
`collection_conflict` (409) when the new path exists; otherwise it succeeds,
the directory moves from old to new, and an existing in-memory handle is
rekeyed from the old to the new name. -/
theorem C5_rename_collection :
    ∀ (env : RenameEnv) (old_name new_name : Str),
      (old_name = new_name →
        svc_rename_collection env old_name new_name =
          .error { code := ("rename_invalid").toList,
                   error_type := ("invalid").toList } ∧
        renameStatus (("invalid").toList) = 400) ∧
      (old_name ≠ new_name → getPS env old_name ≠ .dir →
        svc_rename_collection env old_name new_name =
          .error { code := ("collection_not_found").toList,
                   error_type := ("not_found").toList } ∧
        renameStatus (("not_found").toList) = 404) ∧
      (old_name ≠ new_name → getPS env old_name = .dir →
        getPS env new_name ≠ .absent →
        svc_rename_collection env old_name new_name =
          .error { code := ("collection_conflict").toList,
                   error_type := ("conflict").toList } ∧
        renameStatus (("conflict").toList) = 409) ∧
      (old_name ≠ new_name → getPS env old_name = .dir →
        getPS env new_name = .absent →
        ∃ env', svc_rename_collection env old_name new_name = .ok env' ∧
          getPS env' old_name = .absent ∧ getPS env' new_name = .dir ∧
          (∀ h, getA old_name env.handles = some h →
            getA new_name env'.handles = some h ∧
            getA old_name env'.handles = none) ∧
          (getA old_name env.handles = none → env'.handles = env.handles)) := by
  intro env old_name new_name
  refine ⟨fun he => ⟨by simp [svc_rename_collection, he], rfl⟩,
    fun hne hdir => ⟨?_, rfl⟩, fun hne hdir hconf => ⟨?_, rfl⟩,
    fun hne hdir habs => ?_⟩
  · simp [svc_rename_collection, store_rename_collection, hne, hdir]
  · simp [svc_rename_collection, store_rename_collection, hne, hdir, hconf]
  · refine ⟨{ fs := setA new_name .dir (setA old_name .absent env.fs)
              handles :=
                match getA old_name env.handles with
                | some h => setA new_name h (eraseA old_name env.handles)
                | none => env.handles }, ?_, ?_, ?_, ?_, ?_⟩
    · simp [svc_rename_collection, store_rename_collection, hne, hdir, habs]
    · show ((getA old_name (setA new_name PathState.dir
        (setA old_name PathState.absent env.fs))).getD .absent) = .absent
      rw [getA_setA_other _ _ _ _ hne, getA_setA_same]
      rfl
    · show ((getA new_name (setA new_name PathState.dir
        (setA old_name PathState.absent env.fs))).getD .absent) = .dir
      rw [getA_setA_same]
      rfl
    · intro h hh
      constructor
      · show getA new_name (match getA old_name env.handles with
          | some h => setA new_name h (eraseA old_name env.handles)
          | none => env.handles) = some h
        rw [hh, getA_setA_same]
      · show getA old_name (match getA old_name env.handles with
          | some h => setA new_name h (eraseA old_name env.handles)
          | none => env.handles) = none
        rw [hh, getA_setA_other _ _ _ _ hne, getA_eraseA_same]
    · intro hh
      show (match getA old_name env.handles with
        | some h => setA new_name h (eraseA old_name env.handles)
        | none => env.handles) = env.handles
      rw [hh]

/-- C5 witness: the four branches at a concrete two-collection tenant. -/
theorem C5_rename_collection_witness :
    (svc_rename_collection
        { fs := [((("foo").toList), PathState.dir)], handles := [] }
        (("foo").toList) (("foo").toList) =
      .error { code := ("rename_invalid").toList,
               error_type := ("invalid").toList }) ∧
    (svc_rename_collection
        { fs := [((("foo").toList), PathState.dir)], handles := [] }
        (("gone").toList) (("bar").toList) =
      .error { code := ("collection_not_found").toList,
               error_type := ("not_found").toList }) ∧
    (svc_rename_collection
        { fs := [((("foo").toList), PathState.dir),
                 ((("bar").toList), PathState.dir)], handles := [] }
        (("bar").toList) (("foo").toList) =
      .error { code := ("collection_conflict").toList,
               error_type := ("conflict").toList }) ∧
    (∃ env', svc_rename_collection
        { fs := [((("foo").toList), PathState.dir)],
          handles := [((("foo").toList), 7)] }
        (("foo").toList) (("bar").toList) = .ok env' ∧
      getPS env' (("foo").toList) = .absent ∧
      getPS env' (("bar").toList) = .dir ∧
      getA (("bar").toList) env'.handles = some 7) := by
  refine ⟨((C5_rename_collection _ _ _).1 rfl).1,
    ((C5_rename_collection _ _ _).2.1 (by decide) (by decide)).1,
    ((C5_rename_collection _ _ _).2.2.1 (by decide) (by decide) (by decide)).1,
    ?_⟩
  obtain ⟨env', hok, hold, hnew, hh, _⟩ :=
    (C5_rename_collection
      { fs := [((("foo").toList), PathState.dir)],
        handles := [((("foo").toList), 7)] }
      (("foo").toList) (("bar").toList)).2.2.2 (by decide) (by decide) (by decide)
  exact ⟨env', hok, hold, hnew, (hh 7 rfl).1⟩

/-
Archive restore: `service._validate_zip_members` / `service.restore_archive`
(service.py 285-294 and 415-443) and the `restore_archive` handler's
`ValueError` → 400 `archive_invalid` mapping (main.py 363-364).
-/

/-- Slash-splitting of a member name (the `pathlib` component split). -/
def splitSlash : Str → List Str
  | [] => [[]]
  | c :: rest =>
      match splitSlash rest with
      | [] => [[]]
      | cur :: parts =>
          if c = '/' then [] :: cur :: parts else (c :: cur) :: parts

/-- Embedding of `Path(name).parts` for relative names: empty and `.`
components are normalized away (a leading `/` is covered separately by the
absolute-path check). -/
def pathParts (name : Str) : List Str :=
  (splitSlash name).filter (fun comp => !(comp = [] || comp = ['.']))

/-- Embedding of the per-member validation: empty names are skipped; a name
is rejected when `Path(name)` is absolute (POSIX: leading `/`) or has a `..`
component, or when the raw name starts with `/` or `\`. -/
def memberInvalid (name : Str) : Bool :=
  if name.isEmpty then false
  else startsWithL ['/'] name ||
    (pathParts name).any (fun comp => decide (comp = ['.', '.'])) ||
    startsWithL [backslashChar] name

/-- Embedding of the `_validate_zip_members` loop: raises `ValueError` at the
first invalid member. -/
def validateZipMembers : List Str → Except Str Unit
  | [] => .ok ()
  | name :: rest =>
      if memberInvalid name then
        .error (("invalid archive member: ").toList ++ name)
      else validateZipMembers rest

/-- Embedding of `restore_archive` over the data-dir contents: the uploaded
archive is validated in a temp area before anything under `data_dir` is
touched; on success every entry of `data_dir` is purged and the extracted
entries are moved in; the handler maps the `ValueError` to HTTP 400
`archive_invalid`.  The pair holds the outcome and the resulting `data_dir`
contents. -/
def restore_archive (dataDir archive : List (Str × Str)) :
    Except (Nat × Str × Str) Unit × List (Str × Str) :=
  match validateZipMembers (archive.map Prod.fst) with
  | .error msg => (.error (400, ("archive_invalid").toList, msg), dataDir)
  | .ok _ => (.ok (), archive)

theorem validateZipMembers_error_of_invalid {names : List Str}
    (h : names.any memberInvalid = true) :
    ∃ msg, validateZipMembers names = .error msg := by
  induction names with
  | nil => cases h
  | cons name rest ih =>
    by_cases hn : memberInvalid name = true
    · exact ⟨("invalid archive member: ").toList ++ name,
        by simp [validateZipMembers, hn]⟩
    · simp only [List.any_cons, Bool.or_eq_true] at h
      rcases h with h | h
      · exact absurd h hn
      · rcases ih h with ⟨msg, hmsg⟩
        exact ⟨msg, by simp [validateZipMembers, hn, hmsg]⟩

/-- C9: every member name that is absolute, starts with a separator, or has a
`..` component is rejected by the validator, and an archive containing any
invalid member makes `restore_archive` fail with `archive_invalid` (HTTP 400)
while `data_dir` is left unchanged (validation precedes the purge). -/
theorem C9_restore_validation :
    (∀ name : Str,
      (startsWithL ['/'] name = true ∨ startsWithL [backslashChar] name = true ∨
        (pathParts name).any (fun comp => decide (comp = ['.', '.'])) = true) →
      memberInvalid name = true) ∧
    (∀ dataDir archive : List (Str × Str),
      (archive.map Prod.fst).any memberInvalid = true →
      ∃ msg, restore_archive dataDir archive =
        (.error (400, ("archive_invalid").toList, msg), dataDir)) := by
  constructor
  · intro name h
    have hne : name.isEmpty = false := by
      cases name with
      | nil =>
        rcases h with h | h | h <;> simp [startsWithL, pathParts, splitSlash] at h
      | cons c rest => rfl
    rcases h with h | h | h <;> simp [memberInvalid, hne, h]
  · intro dataDir archive h
    rcases validateZipMembers_error_of_invalid h with ⟨msg, hmsg⟩
    exact ⟨msg, by simp [restore_archive, hmsg]⟩

/-- C9 witness: a concrete zip-slip archive is rejected and the data dir kept. -/
theorem C9_restore_validation_witness :
    memberInvalid (("../evil.txt").toList) = true ∧
    (∃ msg, restore_archive [((("t_a/c_b/catalog.json").toList), ("cat").toList)]
        [((("../evil.txt").toList), ("x").toList)] =
      (.error (400, ("archive_invalid").toList, msg),
        [((("t_a/c_b/catalog.json").toList), ("cat").toList)])) :=
  ⟨C9_restore_validation.1 (("../evil.txt").toList) (Or.inr (Or.inr (by decide))),
   C9_restore_validation.2 [((("t_a/c_b/catalog.json").toList), ("cat").toList)]
     [((("../evil.txt").toList), ("x").toList)] (by decide)⟩

/-
Per-tenant admission.  `tenant_rate_limit` is imported from `pave.auth` in
src/pave/main.py line 19 and used as the dependency of every tenant-scoped
route, but its definition is not part of src/ (src/pave/auth.py stops at
`authorize_tenant`); only its callers and tests are present.
-/

/-- The per-tenant admission state of the application
(`app.state.tenant_limits`, `tenant_default_limit`, `tenant_active`,
main.py 126-141). -/
structure RateState where
  tenant_limits : List (Str × Int)
  tenant_default_limit : Int
  tenant_active : List (Str × Int)

/-- A 429 rejection with its response headers. -/
structure RateReject where
  status : Nat
  code : Str
  headers : List (Str × Str)

/-- Modelled from the spec: the `tenant_rate_limit` dependency (absent from
src/pave/auth.py) per spec §4.4 and §6.1 — `tenant_limits[t]` overrides,
missing tenants use `tenant_default_limit`, 0 means unlimited; admin requests
bypass the cap; at or above the limit the request is rejected with 429
`tenant_rate_limited` and headers `X-RateLimit-Remaining: 0`,
`Retry-After: 1`; otherwise `tenant_active[t]` is incremented on admission. -/
def tenant_rate_limit (st : RateState) (tenant : Str) (isAdmin : Bool) :
    Except RateReject RateState :=
  if isAdmin then .ok st
  else
    let limit := (getA tenant st.tenant_limits).getD st.tenant_default_limit
    let active := (getA tenant st.tenant_active).getD 0
    if limit ≠ 0 ∧ limit ≤ active then
      .error { status := 429, code := ("tenant_rate_limited").toList,
               headers := [((("X-RateLimit-Remaining").toList), ("0").toList),
                           ((("Retry-After").toList), ("1").toList)] }
    else .ok { st with tenant_active := setA tenant (active + 1) st.tenant_active }

/-- Modelled from the spec: completion of an admitted request decrements
`tenant_active[t]` (admin requests were never counted). -/
def tenant_rate_limit_complete (st : RateState) (tenant : Str) (isAdmin : Bool) :
    RateState :=
  if isAdmin then st
  else { st with tenant_active := setA tenant (((getA tenant st.tenant_active).getD 0) - 1) st.tenant_active }

/-- C2 (modelled from the spec, see `tenant_rate_limit`): a non-admin tenant
at or above its effective limit (override, else default; 0 = unlimited) is
rejected with 429 `tenant_rate_limited` carrying `X-RateLimit-Remaining: 0`
and `Retry-After: 1`; below the limit the request is admitted with
`tenant_active[t]` incremented, and completion restores the previous count;
admin requests bypass the cap. -/
theorem C2_tenant_rate_limit :
    ∀ (st : RateState) (tenant : Str),
      (((getA tenant st.tenant_limits).getD st.tenant_default_limit) ≠ 0 →
        ((getA tenant st.tenant_limits).getD st.tenant_default_limit) ≤
          ((getA tenant st.tenant_active).getD 0) →
        tenant_rate_limit st tenant false =
          .error { status := 429, code := ("tenant_rate_limited").toList,
                   headers := [((("X-RateLimit-Remaining").toList), ("0").toList),
                               ((("Retry-After").toList), ("1").toList)] }) ∧
      ((((getA tenant st.tenant_limits).getD st.tenant_default_limit) = 0 ∨
        ((getA tenant st.tenant_active).getD 0) <
          ((getA tenant st.tenant_limits).getD st.tenant_default_limit)) →
        ∃ st', tenant_rate_limit st tenant false = .ok st' ∧
          (getA tenant st'.tenant_active).getD 0 =
            ((getA tenant st.tenant_active).getD 0) + 1 ∧
          (getA tenant (tenant_rate_limit_complete st' tenant
            false).tenant_active).getD 0 =
            (getA tenant st.tenant_active).getD 0) ∧
      (tenant_rate_limit st tenant true = .ok st) := by
  intro st tenant
  refine ⟨fun hl ha => ?_, fun h => ?_, rfl⟩
  · simp [tenant_rate_limit, hl, ha]
  · have hcond : ¬(((getA tenant st.tenant_limits).getD st.tenant_default_limit)
        ≠ 0 ∧ ((getA tenant st.tenant_limits).getD st.tenant_default_limit) ≤
          ((getA tenant st.tenant_active).getD 0)) := by
      rcases h with h | h
      · simp [h]
      · intro hc
        omega
    refine ⟨{ st with tenant_active := setA tenant (((getA tenant st.tenant_active).getD 0) + 1) st.tenant_active },
      by simp [tenant_rate_limit, hcond], ?_, ?_⟩
    · show ((getA tenant (setA tenant (((getA tenant st.tenant_active).getD 0)
        + 1) st.tenant_active)).getD 0) = ((getA tenant st.tenant_active).getD 0) + 1
      rw [getA_setA_same]
      rfl
    · simp only [tenant_rate_limit_complete, Bool.false_eq_true, if_false,
        getA_setA_same, Option.getD_some]
      omega

/-- C2 witness: the three branches at a concrete state (limit 1, one active
request; then a fresh tenant under default 0 = unlimited; then admin). -/
theorem C2_tenant_rate_limit_witness :
    (tenant_rate_limit
        { tenant_limits := [((("acme").toList), 1)], tenant_default_limit := 0,
          tenant_active := [((("acme").toList), 1)] } (("acme").toList) false =
      .error { status := 429, code := ("tenant_rate_limited").toList,
               headers := [((("X-RateLimit-Remaining").toList), ("0").toList),
                           ((("Retry-After").toList), ("1").toList)] }) ∧
    (∃ st', tenant_rate_limit
        { tenant_limits := [], tenant_default_limit := 0,
          tenant_active := [((("acme").toList), 9999)] } (("acme").toList) false =
      .ok st' ∧ (getA (("acme").toList) st'.tenant_active).getD 0 = 10000) ∧
    (tenant_rate_limit
        { tenant_limits := [((("acme").toList), 1)], tenant_default_limit := 0,
          tenant_active := [((("acme").toList), 1)] } (("acme").toList) true =
      .ok { tenant_limits := [((("acme").toList), 1)], tenant_default_limit := 0,
            tenant_active := [((("acme").toList), 1)] }) := by
  refine ⟨(C2_tenant_rate_limit _ (("acme").toList)).1 (by decide) (by decide),
    ?_, (C2_tenant_rate_limit _ (("acme").toList)).2.2⟩
  obtain ⟨st', hok, hinc, _⟩ :=
    (C2_tenant_rate_limit
      { tenant_limits := [], tenant_default_limit := 0,
        tenant_active := [((("acme").toList), 9999)] }
      (("acme").toList)).2.1 (Or.inl (by decide))
  exact ⟨st', hok, hinc⟩

end Patchvec
